import Mathlib

set_option maxRecDepth 100000

/-!
Verification of the Bitcoin raw-transaction decoder
(`src/Assignment3/btc_tx_decoder/src/main.rs`).

The Rust source is shallowly embedded below.  A byte buffer is a
`List Nat` whose entries are byte values (`< 256`); Rust `usize`
arithmetic is `Nat`, except where a decoded 64-bit compact-size count is
added to the cursor — there release-mode Rust wraps modulo `2 ^ 64`, which
is modelled explicitly by `w64`.  Rust slice indexing `bytes[a..b]` is
bounds checked and aborts the process (a panic) when `a ≤ b ≤ len` fails;
this abort is modelled by the dedicated outcome `PErr.crash`, distinct
from the `Err(String)` values the Rust functions return (`PErr.msg`).
The final `serde_json` pretty-printing step is an external collaborator
per the specification and is not modelled: the decoder here returns the
assembled `BitcoinTransaction` record itself.
-/

/-- Outcome of a fallible parsing step: an ordinary `Err(String)` returned
by the Rust code (`msg`), or a runtime abort of a bounds-checked slice
index / overflowing add (`crash`). -/
inductive PErr where
  | msg : String → PErr
  | crash : PErr
deriving DecidableEq, Repr

instance {ε α : Type} [DecidableEq ε] [DecidableEq α] : DecidableEq (Except ε α) := fun x y =>
  match x, y with
  | .ok a, .ok b => if h : a = b then isTrue (by rw [h]) else isFalse (by simp [h])
  | .error e, .error f => if h : e = f then isTrue (by rw [h]) else isFalse (by simp [h])
  | .ok _, .error _ => isFalse (by simp)
  | .error _, .ok _ => isFalse (by simp)

/-- Mirrors the Rust struct `TxInput` (all fields hex text). -/
structure TxInput where
  txid : String
  vout : String
  scriptsigsize : String
  scriptsig : String
  sequence : String
deriving DecidableEq, Repr

/-- Mirrors the Rust struct `TxOutput`. -/
structure TxOutput where
  amount : String
  scriptpubkeysize : String
  scriptpubkey : String
deriving DecidableEq, Repr

/-- One witness stack entry: the JSON object `{"size": .., "item": ..}`
stored in the Rust code under the key `i.to_string()`; the key is the
position of the entry in `WitnessStack.items`. -/
structure WitnessItemVal where
  size : String
  item : String
deriving DecidableEq, Repr

/-- One per-input witness stack: the JSON object holding `"stackitems"`
plus the index-keyed items. -/
structure WitnessStack where
  stackitems : String
  items : List WitnessItemVal
deriving DecidableEq, Repr

/-- Mirrors the Rust struct `BitcoinTransaction`. -/
structure BitcoinTransaction where
  version : String
  marker : String
  flag : String
  inputcount : String
  inputs : List TxInput
  outputcount : String
  outputs : List TxOutput
  witness : List WitnessStack
  locktime : String
deriving DecidableEq, Repr

/-- The character list of the lowercase hex rendering of a byte list
(`hex::encode`): two hex digits per byte, high nibble first. -/
def hexChars (l : List Nat) : List Char :=
  l.flatMap fun b => [Nat.digitChar (b / 16), Nat.digitChar (b % 16)]

/-- `hex::encode` as a `String`. -/
def hexEncode (l : List Nat) : String := ⟨hexChars l⟩

/-- The byte sub-buffer `bytes[a..b]` (as a list; no bounds checking —
see `sliceHex` for the checked access used by the decoder). -/
def sliceBytes (bytes : List Nat) (a b : Nat) : List Nat :=
  (bytes.drop a).take (b - a)

/-- `hex::encode(&bytes[a..b])`: Rust slice indexing panics unless
`a ≤ b ≤ bytes.len()`, modelled by the `crash` outcome. -/
def sliceHex (bytes : List Nat) (a b : Nat) : Except PErr String :=
  if a ≤ b ∧ b ≤ bytes.length then .ok (hexEncode (sliceBytes bytes a b))
  else .error .crash

/-- 64-bit wrap-around of release-mode `usize` addition. -/
def w64 (n : Nat) : Nat := n % 2 ^ 64

/-- Sequencing of fallible steps (`?` in the Rust source): errors and
crashes propagate, values flow on. -/
def pbind : Except PErr α → (α → Except PErr β) → Except PErr β
  | .error e, _ => .error e
  | .ok a, f => f a

/-- `read_compact_size(bytes, pos)`: Bitcoin's variable-width integer.
Returns `(decoded count, bytes consumed)`.  The Rust `match` on a `u8`
has arms `0..=0xfc`, `0xfd`, `0xfe`, `0xff`; the final `else` below is
the `0xff` arm (exhaustive for byte values). -/
def read_compact_size (bytes : List Nat) (pos : Nat) : Except PErr (Nat × Nat) :=
  if bytes.length ≤ pos then .error (.msg "Invalid compact size")
  else
    if bytes.getD pos 0 ≤ 0xfc then .ok (bytes.getD pos 0, 1)
    else if bytes.getD pos 0 = 0xfd then
      if bytes.length < pos + 3 then .error (.msg "Invalid compact size")
      else .ok (bytes.getD (pos + 1) 0 + 256 * bytes.getD (pos + 2) 0, 3)
    else if bytes.getD pos 0 = 0xfe then
      if bytes.length < pos + 5 then .error (.msg "Invalid compact size")
      else .ok (bytes.getD (pos + 1) 0 + 256 * bytes.getD (pos + 2) 0 +
        65536 * bytes.getD (pos + 3) 0 + 16777216 * bytes.getD (pos + 4) 0, 5)
    else
      if bytes.length < pos + 9 then .error (.msg "Invalid compact size")
      else .ok (bytes.getD (pos + 1) 0 + 256 * bytes.getD (pos + 2) 0 +
        65536 * bytes.getD (pos + 3) 0 + 16777216 * bytes.getD (pos + 4) 0 +
        4294967296 * bytes.getD (pos + 5) 0 + 1099511627776 * bytes.getD (pos + 6) 0 +
        281474976710656 * bytes.getD (pos + 7) 0 + 72057594037927936 * bytes.getD (pos + 8) 0, 9)

/-- `parse_input(bytes, pos)`: 32-byte txid, 4-byte vout, compact-length
prefixed scriptSig, 4-byte sequence; returns the record and bytes
consumed (`offset - pos`).  The cursor advance `offset + script_sig_len`
is release-mode `usize` addition, hence `w64`. -/
def parse_input (bytes : List Nat) (pos : Nat) : Except PErr (TxInput × Nat) :=
  if bytes.length < pos + 32 then .error (.msg "Invalid input: txid too short") else
  pbind (sliceHex bytes pos (pos + 32)) fun txid =>
  if bytes.length < pos + 36 then .error (.msg "Invalid input: vout too short") else
  pbind (sliceHex bytes (pos + 32) (pos + 36)) fun vout =>
  pbind (read_compact_size bytes (pos + 36)) fun cs =>
  pbind (sliceHex bytes (pos + 36) (pos + 36 + cs.2)) fun scriptsigsize =>
  if bytes.length < w64 (pos + 36 + cs.2 + cs.1) then
    .error (.msg "Invalid input: script_sig too short") else
  pbind (sliceHex bytes (pos + 36 + cs.2) (w64 (pos + 36 + cs.2 + cs.1))) fun scriptsig =>
  if bytes.length < w64 (pos + 36 + cs.2 + cs.1) + 4 then
    .error (.msg "Invalid input: sequence too short") else
  pbind (sliceHex bytes (w64 (pos + 36 + cs.2 + cs.1)) (w64 (pos + 36 + cs.2 + cs.1) + 4))
    fun sequence =>
  .ok ({ txid := txid, vout := vout, scriptsigsize := scriptsigsize,
         scriptsig := scriptsig, sequence := sequence },
       w64 (pos + 36 + cs.2 + cs.1) + 4 - pos)

/-- `parse_output(bytes, pos)`: 8-byte amount, compact-length prefixed
scriptPubKey; returns the record and bytes consumed. -/
def parse_output (bytes : List Nat) (pos : Nat) : Except PErr (TxOutput × Nat) :=
  if bytes.length < pos + 8 then .error (.msg "Invalid output: amount too short") else
  pbind (sliceHex bytes pos (pos + 8)) fun amount =>
  pbind (read_compact_size bytes (pos + 8)) fun cs =>
  pbind (sliceHex bytes (pos + 8) (pos + 8 + cs.2)) fun scriptpubkeysize =>
  if bytes.length < w64 (pos + 8 + cs.2 + cs.1) then
    .error (.msg "Invalid output: script_pubkey too short") else
  pbind (sliceHex bytes (pos + 8 + cs.2) (w64 (pos + 8 + cs.2 + cs.1))) fun scriptpubkey =>
  .ok ({ amount := amount, scriptpubkeysize := scriptpubkeysize,
         scriptpubkey := scriptpubkey },
       w64 (pos + 8 + cs.2 + cs.1) - pos)

/-- The `for _ in 0..input_count` loop of `btc_tx_decoder`: parses `n`
inputs starting at `pos`, returning them with the final cursor. -/
def parseInputs (bytes : List Nat) : Nat → Nat → Except PErr (List TxInput × Nat)
  | 0, pos => .ok ([], pos)
  | n + 1, pos =>
    pbind (parse_input bytes pos) fun r =>
    pbind (parseInputs bytes n (pos + r.2)) fun rest =>
    .ok (r.1 :: rest.1, rest.2)

/-- The `for _ in 0..output_count` loop. -/
def parseOutputs (bytes : List Nat) : Nat → Nat → Except PErr (List TxOutput × Nat)
  | 0, pos => .ok ([], pos)
  | n + 1, pos =>
    pbind (parse_output bytes pos) fun r =>
    pbind (parseOutputs bytes n (pos + r.2)) fun rest =>
    .ok (r.1 :: rest.1, rest.2)

/-- The inner `for i in 0..stack_items` loop of the witness section:
reads a compact item length, slices its hex, then checks
`pos + item_size > bytes.len()` (release-mode wrap `w64`) before
slicing the item.  Item order is index order `0, 1, …`. -/
def parseWitnessItems (bytes : List Nat) : Nat → Nat → Except PErr (List WitnessItemVal × Nat)
  | 0, pos => .ok ([], pos)
  | n + 1, pos =>
    pbind (read_compact_size bytes pos) fun cs =>
    pbind (sliceHex bytes pos (pos + cs.2)) fun size_hex =>
    if bytes.length < w64 (pos + cs.2 + cs.1) then .error (.msg "Invalid witness data") else
    pbind (sliceHex bytes (pos + cs.2) (w64 (pos + cs.2 + cs.1))) fun item_hex =>
    pbind (parseWitnessItems bytes n (w64 (pos + cs.2 + cs.1))) fun rest =>
    .ok ({ size := size_hex, item := item_hex } :: rest.1, rest.2)

/-- The outer witness loop (`for _ in 0..input_count`): one stack per
input, each opened by its compact stack-item count. -/
def parseWitnessStacks (bytes : List Nat) : Nat → Nat → Except PErr (List WitnessStack × Nat)
  | 0, pos => .ok ([], pos)
  | n + 1, pos =>
    pbind (read_compact_size bytes pos) fun cs =>
    pbind (sliceHex bytes pos (pos + cs.2)) fun stackitems =>
    pbind (parseWitnessItems bytes cs.1 (pos + cs.2)) fun items =>
    pbind (parseWitnessStacks bytes n items.2) fun rest =>
    .ok ({ stackitems := stackitems, items := items.1 } :: rest.1, rest.2)

/-- The segwit marker/flag test of `btc_tx_decoder` at `pos = 4`:
`pos + 2 <= bytes.len() && bytes[pos] == 0x00 && bytes[pos + 1] == 0x01`. -/
def segwitFlagAt (bytes : List Nat) : Bool :=
  decide (6 ≤ bytes.length) && (bytes.getD 4 0 == 0) && (bytes.getD 5 0 == 1)

/-- The remainder of `btc_tx_decoder` after the version/marker/flag
region: input count, inputs, output count, outputs, witness (iff
segwit), locktime, record assembly. -/
def decodeRest (bytes : List Nat) (pos : Nat) (version marker flag : String)
    (isSegwit : Bool) : Except PErr BitcoinTransaction :=
  pbind (read_compact_size bytes pos) fun ic =>
  pbind (sliceHex bytes pos (pos + ic.2)) fun inputcount =>
  pbind (parseInputs bytes ic.1 (pos + ic.2)) fun ins =>
  pbind (read_compact_size bytes ins.2) fun oc =>
  pbind (sliceHex bytes ins.2 (ins.2 + oc.2)) fun outputcount =>
  pbind (parseOutputs bytes oc.1 (ins.2 + oc.2)) fun outs =>
  pbind (if isSegwit then parseWitnessStacks bytes ic.1 outs.2 else .ok ([], outs.2)) fun wit =>
  if bytes.length < wit.2 + 4 then .error (.msg "Input too short for locktime") else
  pbind (sliceHex bytes wit.2 (wit.2 + 4)) fun locktime =>
  .ok { version := version, marker := marker, flag := flag,
        inputcount := inputcount, inputs := ins.1,
        outputcount := outputcount, outputs := outs.1,
        witness := wit.1, locktime := locktime }

/-- `btc_tx_decoder` on the decoded byte buffer: version, segwit
detection, then `decodeRest` starting at cursor 6 (segwit) or 4. -/
def decodeBytes (bytes : List Nat) : Except PErr BitcoinTransaction :=
  if bytes.length < 4 then .error (.msg "Input too short for version") else
  pbind (sliceHex bytes 0 4) fun version =>
  if segwitFlagAt bytes then
    pbind (sliceHex bytes 4 5) fun m =>
    pbind (sliceHex bytes 5 6) fun f =>
    decodeRest bytes 6 version m f true
  else
    decodeRest bytes 4 version "" "" false

/-- The numeric value of one hex digit (`0-9`, `a-f`, `A-F`), or `none`. -/
def hexDigitVal (c : Char) : Option Nat :=
  if '0' ≤ c ∧ c ≤ '9' then some (c.toNat - '0'.toNat)
  else if 'a' ≤ c ∧ c ≤ 'f' then some (c.toNat - 'a'.toNat + 10)
  else if 'A' ≤ c ∧ c ≤ 'F' then some (c.toNat - 'A'.toNat + 10)
  else none

/-- `hex::decode`: pairs of hex digits to bytes; `none` on a lone
trailing digit (odd length) or any non-hex-digit character. -/
def hexDecode : List Char → Option (List Nat)
  | [] => some []
  | [_] => none
  | c1 :: c2 :: rest =>
    match hexDigitVal c1, hexDigitVal c2, hexDecode rest with
    | some h, some l, some bs => some ((16 * h + l) :: bs)
    | _, _, _ => none

/-- `btc_tx_decoder(input)`: strips space characters
(`input.replace(" ", "")`), hex-decodes, then parses the bytes.  The
final JSON pretty-printing is an external collaborator and not
modelled; the assembled record is returned. -/
def btc_tx_decoder (input : String) : Except PErr BitcoinTransaction :=
  match hexDecode (input.data.filter fun c => c ≠ ' ') with
  | none => .error (.msg "Invalid hex")
  | some bytes => decodeBytes bytes

/-- Wire-order concatenation of an input's emitted hex fields. -/
def renderInput (i : TxInput) : List Char :=
  i.txid.data ++ i.vout.data ++ i.scriptsigsize.data ++ i.scriptsig.data ++ i.sequence.data

/-- Wire-order concatenation of an output's emitted hex fields. -/
def renderOutput (o : TxOutput) : List Char :=
  o.amount.data ++ o.scriptpubkeysize.data ++ o.scriptpubkey.data

/-- Wire-order concatenation of a witness item's emitted hex fields. -/
def renderItem (w : WitnessItemVal) : List Char := w.size.data ++ w.item.data

/-- Wire-order concatenation of a witness stack's emitted hex fields. -/
def renderStack (w : WitnessStack) : List Char :=
  w.stackitems.data ++ (w.items.map renderItem).flatten

/-- Wire-order concatenation of every emitted field of the record. -/
def renderTx (tx : BitcoinTransaction) : List Char :=
  tx.version.data ++ tx.marker.data ++ tx.flag.data ++ tx.inputcount.data ++
  (tx.inputs.map renderInput).flatten ++ tx.outputcount.data ++
  (tx.outputs.map renderOutput).flatten ++ (tx.witness.map renderStack).flatten ++
  tx.locktime.data

theorem pbind_ok (a : α) (f : α → Except PErr β) : pbind (.ok a) f = f a := rfl

theorem pbind_error (e : PErr) (f : α → Except PErr β) :
    pbind (Except.error e) f = .error e := rfl

theorem pbind_eq_ok {x : Except PErr α} {f : α → Except PErr β} {b : β}
    (h : pbind x f = .ok b) : ∃ a, x = .ok a ∧ f a = .ok b := by
  cases x with
  | ok a => exact ⟨a, rfl, h⟩
  | error e => simp [pbind] at h

theorem sliceHex_ok {bytes : List Nat} {a b : Nat} (h1 : a ≤ b) (h2 : b ≤ bytes.length) :
    sliceHex bytes a b = .ok (hexEncode (sliceBytes bytes a b)) := by
  simp [sliceHex, h1, h2]

theorem sliceHex_ok_elim {bytes : List Nat} {a b : Nat} {s : String}
    (h : sliceHex bytes a b = .ok s) :
    a ≤ b ∧ b ≤ bytes.length ∧ s.data = hexChars (sliceBytes bytes a b) := by
  unfold sliceHex at h
  split at h
  · next hc =>
    refine ⟨hc.1, hc.2, ?_⟩
    cases h
    rfl
  · cases h

theorem hexChars_append (l1 l2 : List Nat) :
    hexChars (l1 ++ l2) = hexChars l1 ++ hexChars l2 := by
  simp [hexChars]

theorem hexChars_length (l : List Nat) : (hexChars l).length = 2 * l.length := by
  induction l with
  | nil => rfl
  | cons b rest ih => simp [hexChars] at ih ⊢; omega

theorem sliceBytes_split (bytes : List Nat) {a b c : Nat} (h1 : a ≤ b) (h2 : b ≤ c) :
    sliceBytes bytes a c = sliceBytes bytes a b ++ sliceBytes bytes b c := by
  unfold sliceBytes
  have hc : c - a = (b - a) + (c - b) := by omega
  rw [hc, List.take_add, List.drop_drop]
  have hb : a + (b - a) = b := by omega
  rw [hb]

theorem sliceBytes_length {bytes : List Nat} {a b : Nat} (h : b ≤ bytes.length) :
    (sliceBytes bytes a b).length = b - a := by
  simp [sliceBytes]
  omega

theorem read_compact_size_cases {bytes : List Nat} {pos c s : Nat}
    (h : read_compact_size bytes pos = .ok (c, s)) :
    (s = 1 ∧ pos < bytes.length ∧ bytes.getD pos 0 ≤ 252 ∧ c = bytes.getD pos 0) ∨
    (s = 3 ∧ pos + 3 ≤ bytes.length ∧ bytes.getD pos 0 = 253 ∧
      c = bytes.getD (pos + 1) 0 + 256 * bytes.getD (pos + 2) 0) ∨
    (s = 5 ∧ pos + 5 ≤ bytes.length ∧ bytes.getD pos 0 = 254 ∧
      c = bytes.getD (pos + 1) 0 + 256 * bytes.getD (pos + 2) 0 +
        65536 * bytes.getD (pos + 3) 0 + 16777216 * bytes.getD (pos + 4) 0) ∨
    (s = 9 ∧ pos + 9 ≤ bytes.length ∧ ¬ bytes.getD pos 0 ≤ 252 ∧
      bytes.getD pos 0 ≠ 253 ∧ bytes.getD pos 0 ≠ 254 ∧
      c = bytes.getD (pos + 1) 0 + 256 * bytes.getD (pos + 2) 0 +
        65536 * bytes.getD (pos + 3) 0 + 16777216 * bytes.getD (pos + 4) 0 +
        4294967296 * bytes.getD (pos + 5) 0 + 1099511627776 * bytes.getD (pos + 6) 0 +
        281474976710656 * bytes.getD (pos + 7) 0 + 72057594037927936 * bytes.getD (pos + 8) 0) := by
  unfold read_compact_size at h
  split at h
  · cases h
  · split at h
    · next h1 h2 =>
      cases h
      exact Or.inl ⟨rfl, by omega, h2, rfl⟩
    · split at h
      · split at h
        · cases h
        · next h1 h2 h3 h4 =>
          cases h
          exact Or.inr (Or.inl ⟨rfl, by omega, h3, rfl⟩)
      · split at h
        · split at h
          · cases h
          · next h1 h2 h3 h5 h6 =>
            cases h
            exact Or.inr (Or.inr (Or.inl ⟨rfl, by omega, h5, rfl⟩))
        · split at h
          · cases h
          · next h1 h2 h3 h5 h7 =>
            cases h
            exact Or.inr (Or.inr (Or.inr ⟨rfl, by omega, h2, h3, h5, rfl⟩))

theorem read_compact_size_ok_bounds {bytes : List Nat} {pos c s : Nat}
    (h : read_compact_size bytes pos = .ok (c, s)) :
    pos < bytes.length ∧ 1 ≤ s ∧ pos + s ≤ bytes.length := by
  rcases read_compact_size_cases h with ⟨hs, hb, _⟩ | ⟨hs, hb, _⟩ | ⟨hs, hb, _⟩ | ⟨hs, hb, _⟩ <;>
    omega

theorem hexChars_slice_split (bytes : List Nat) {a b c : Nat} (h1 : a ≤ b) (h2 : b ≤ c) :
    hexChars (sliceBytes bytes a c) =
      hexChars (sliceBytes bytes a b) ++ hexChars (sliceBytes bytes b c) := by
  rw [sliceBytes_split bytes h1 h2, hexChars_append]

theorem parse_input_spec {bytes : List Nat} {pos : Nat} {inp : TxInput} {sz : Nat}
    (h : parse_input bytes pos = .ok (inp, sz)) :
    pos + sz ≤ bytes.length ∧ 40 ≤ sz ∧
      renderInput inp = hexChars (sliceBytes bytes pos (pos + sz)) := by
  unfold parse_input at h
  split at h
  · cases h
  obtain ⟨txid, hx1, h⟩ := pbind_eq_ok h
  split at h
  · cases h
  obtain ⟨vout, hx2, h⟩ := pbind_eq_ok h
  obtain ⟨cs, hcs, h⟩ := pbind_eq_ok h
  obtain ⟨sss, hx3, h⟩ := pbind_eq_ok h
  split at h
  · cases h
  obtain ⟨ssig, hx4, h⟩ := pbind_eq_ok h
  split at h
  · cases h
  obtain ⟨seq, hx5, h⟩ := pbind_eq_ok h
  cases h
  obtain ⟨hb1, hb1', hd1⟩ := sliceHex_ok_elim hx1
  obtain ⟨hb2, hb2', hd2⟩ := sliceHex_ok_elim hx2
  obtain ⟨hb3, hb3', hd3⟩ := sliceHex_ok_elim hx3
  obtain ⟨hb4, hb4', hd4⟩ := sliceHex_ok_elim hx4
  obtain ⟨hb5, hb5', hd5⟩ := sliceHex_ok_elim hx5
  obtain ⟨hcp, hcs1, hcb⟩ := read_compact_size_ok_bounds hcs
  have hq : pos + (w64 (pos + 36 + cs.2 + cs.1) + 4 - pos) = w64 (pos + 36 + cs.2 + cs.1) + 4 := by
    omega
  refine ⟨by omega, by omega, ?_⟩
  rw [hq, hexChars_slice_split bytes (by omega : pos ≤ pos + 32) (by omega : pos + 32 ≤ w64 (pos + 36 + cs.2 + cs.1) + 4),
    hexChars_slice_split bytes (by omega : pos + 32 ≤ pos + 36) (by omega : pos + 36 ≤ w64 (pos + 36 + cs.2 + cs.1) + 4),
    hexChars_slice_split bytes (by omega : pos + 36 ≤ pos + 36 + cs.2) (by omega : pos + 36 + cs.2 ≤ w64 (pos + 36 + cs.2 + cs.1) + 4),
    hexChars_slice_split bytes hb4 (by omega : w64 (pos + 36 + cs.2 + cs.1) ≤ w64 (pos + 36 + cs.2 + cs.1) + 4)]
  simp [renderInput, hd1, hd2, hd3, hd4, hd5]

theorem parse_output_spec {bytes : List Nat} {pos : Nat} {outp : TxOutput} {sz : Nat}
    (h : parse_output bytes pos = .ok (outp, sz)) :
    pos + sz ≤ bytes.length ∧ 9 ≤ sz ∧
      renderOutput outp = hexChars (sliceBytes bytes pos (pos + sz)) := by
  unfold parse_output at h
  split at h
  · cases h
  obtain ⟨amount, hx1, h⟩ := pbind_eq_ok h
  obtain ⟨cs, hcs, h⟩ := pbind_eq_ok h
  obtain ⟨spks, hx2, h⟩ := pbind_eq_ok h
  split at h
  · cases h
  obtain ⟨spk, hx3, h⟩ := pbind_eq_ok h
  cases h
  obtain ⟨hb1, hb1', hd1⟩ := sliceHex_ok_elim hx1
  obtain ⟨hb2, hb2', hd2⟩ := sliceHex_ok_elim hx2
  obtain ⟨hb3, hb3', hd3⟩ := sliceHex_ok_elim hx3
  obtain ⟨hcp, hcs1, hcb⟩ := read_compact_size_ok_bounds hcs
  have hq : pos + (w64 (pos + 8 + cs.2 + cs.1) - pos) = w64 (pos + 8 + cs.2 + cs.1) := by
    omega
  refine ⟨by omega, by omega, ?_⟩
  rw [hq, hexChars_slice_split bytes (by omega : pos ≤ pos + 8) (by omega : pos + 8 ≤ w64 (pos + 8 + cs.2 + cs.1)),
    hexChars_slice_split bytes (by omega : pos + 8 ≤ pos + 8 + cs.2) (by omega : pos + 8 + cs.2 ≤ w64 (pos + 8 + cs.2 + cs.1))]
  simp [renderOutput, hd1, hd2, hd3]

theorem parseInputs_spec {bytes : List Nat} :
    ∀ {n pos l q}, parseInputs bytes n pos = .ok (l, q) →
      pos ≤ q ∧ l.length = n ∧
        (l.map renderInput).flatten = hexChars (sliceBytes bytes pos q) := by
  intro n
  induction n with
  | zero =>
    intro pos l q h
    cases h
    simp [sliceBytes, hexChars]
  | succ m ih =>
    intro pos l q h
    unfold parseInputs at h
    obtain ⟨r, hr, h⟩ := pbind_eq_ok h
    obtain ⟨rest, hrest, h⟩ := pbind_eq_ok h
    cases h
    obtain ⟨hb, hsz, hrend⟩ :=
      parse_input_spec (show parse_input bytes pos = .ok (r.1, r.2) by rw [hr])
    obtain ⟨hmono, hlen, hrec⟩ := ih hrest
    refine ⟨by omega, by simp [hlen], ?_⟩
    have hsplit := hexChars_slice_split bytes
      (by omega : pos ≤ pos + r.2) hmono
    simp only [List.map_cons, List.flatten_cons, hrend, hrec, hsplit]

theorem parseOutputs_spec {bytes : List Nat} :
    ∀ {n pos l q}, parseOutputs bytes n pos = .ok (l, q) →
      pos ≤ q ∧ l.length = n ∧
        (l.map renderOutput).flatten = hexChars (sliceBytes bytes pos q) := by
  intro n
  induction n with
  | zero =>
    intro pos l q h
    cases h
    simp [sliceBytes, hexChars]
  | succ m ih =>
    intro pos l q h
    unfold parseOutputs at h
    obtain ⟨r, hr, h⟩ := pbind_eq_ok h
    obtain ⟨rest, hrest, h⟩ := pbind_eq_ok h
    cases h
    obtain ⟨hb, hsz, hrend⟩ :=
      parse_output_spec (show parse_output bytes pos = .ok (r.1, r.2) by rw [hr])
    obtain ⟨hmono, hlen, hrec⟩ := ih hrest
    refine ⟨by omega, by simp [hlen], ?_⟩
    have hsplit := hexChars_slice_split bytes
      (by omega : pos ≤ pos + r.2) hmono
    simp only [List.map_cons, List.flatten_cons, hrend, hrec, hsplit]

theorem parseWitnessItems_spec {bytes : List Nat} :
    ∀ {n pos l q}, parseWitnessItems bytes n pos = .ok (l, q) →
      pos ≤ q ∧ l.length = n ∧
        (l.map renderItem).flatten = hexChars (sliceBytes bytes pos q) := by
  intro n
  induction n with
  | zero =>
    intro pos l q h
    cases h
    simp [sliceBytes, hexChars]
  | succ m ih =>
    intro pos l q h
    unfold parseWitnessItems at h
    obtain ⟨cs, hcs, h⟩ := pbind_eq_ok h
    obtain ⟨size_hex, hsh, h⟩ := pbind_eq_ok h
    split at h
    · cases h
    obtain ⟨item_hex, hih, h⟩ := pbind_eq_ok h
    obtain ⟨rest, hrest, h⟩ := pbind_eq_ok h
    cases h
    obtain ⟨hb1, hb1', hd1⟩ := sliceHex_ok_elim hsh
    obtain ⟨hb2, hb2', hd2⟩ := sliceHex_ok_elim hih
    obtain ⟨hmono, hlen, hrec⟩ := ih hrest
    refine ⟨by omega, by simp [hlen], ?_⟩
    rw [hexChars_slice_split bytes (by omega : pos ≤ pos + cs.2) (by omega),
      hexChars_slice_split bytes hb2 hmono]
    simp [renderItem, hd1, hd2, hrec]

theorem parseWitnessStacks_spec {bytes : List Nat} :
    ∀ {n pos l q}, parseWitnessStacks bytes n pos = .ok (l, q) →
      pos ≤ q ∧ l.length = n ∧
        (l.map renderStack).flatten = hexChars (sliceBytes bytes pos q) := by
  intro n
  induction n with
  | zero =>
    intro pos l q h
    cases h
    simp [sliceBytes, hexChars]
  | succ m ih =>
    intro pos l q h
    unfold parseWitnessStacks at h
    obtain ⟨cs, hcs, h⟩ := pbind_eq_ok h
    obtain ⟨stackitems, hsh, h⟩ := pbind_eq_ok h
    obtain ⟨items, hitems, h⟩ := pbind_eq_ok h
    obtain ⟨rest, hrest, h⟩ := pbind_eq_ok h
    cases h
    obtain ⟨hb1, hb1', hd1⟩ := sliceHex_ok_elim hsh
    obtain ⟨hmono1, hlen1, hrend1⟩ :=
      parseWitnessItems_spec (show parseWitnessItems bytes cs.1 (pos + cs.2) = .ok (items.1, items.2) by rw [hitems])
    obtain ⟨hmono, hlen, hrec⟩ := ih hrest
    refine ⟨by omega, by simp [hlen], ?_⟩
    rw [hexChars_slice_split bytes (by omega : pos ≤ pos + cs.2) (by omega),
      hexChars_slice_split bytes hmono1 hmono]
    simp [renderStack, hd1, hrend1, hrec]

theorem decodeRest_spec {bytes : List Nat} {pos : Nat} {v m f : String} {sw : Bool}
    {tx : BitcoinTransaction} (h : decodeRest bytes pos v m f sw = .ok tx) :
    ∃ q, pos ≤ q ∧ q ≤ bytes.length ∧ tx.version = v ∧ tx.marker = m ∧ tx.flag = f ∧
      tx.inputcount.data ++ (tx.inputs.map renderInput).flatten ++ tx.outputcount.data ++
        (tx.outputs.map renderOutput).flatten ++ (tx.witness.map renderStack).flatten ++
        tx.locktime.data = hexChars (sliceBytes bytes pos q) := by
  unfold decodeRest at h
  obtain ⟨ic, hic, h⟩ := pbind_eq_ok h
  obtain ⟨icount, hicount, h⟩ := pbind_eq_ok h
  obtain ⟨ins, hins, h⟩ := pbind_eq_ok h
  obtain ⟨oc, hoc, h⟩ := pbind_eq_ok h
  obtain ⟨ocount, hocount, h⟩ := pbind_eq_ok h
  obtain ⟨outs, houts, h⟩ := pbind_eq_ok h
  obtain ⟨wit, hwit, h⟩ := pbind_eq_ok h
  split at h
  · cases h
  obtain ⟨lock, hlock, h⟩ := pbind_eq_ok h
  cases h
  obtain ⟨hic1, hic2, hic3⟩ := read_compact_size_ok_bounds hic
  obtain ⟨hbc1, hbc1', hdc1⟩ := sliceHex_ok_elim hicount
  obtain ⟨hins1, hins2, hins3⟩ :=
    parseInputs_spec (show parseInputs bytes ic.1 (pos + ic.2) = .ok (ins.1, ins.2) by rw [hins])
  obtain ⟨hoc1, hoc2, hoc3⟩ := read_compact_size_ok_bounds hoc
  obtain ⟨hbc2, hbc2', hdc2⟩ := sliceHex_ok_elim hocount
  obtain ⟨houts1, houts2, houts3⟩ :=
    parseOutputs_spec (show parseOutputs bytes oc.1 (ins.2 + oc.2) = .ok (outs.1, outs.2) by rw [houts])
  have hw : outs.2 ≤ wit.2 ∧
      (wit.1.map renderStack).flatten = hexChars (sliceBytes bytes outs.2 wit.2) := by
    cases sw with
    | false =>
      simp only [Bool.false_eq_true, if_false] at hwit
      cases hwit
      simp [sliceBytes, hexChars]
    | true =>
      simp only [if_true] at hwit
      obtain ⟨hm, _, hr⟩ :=
        parseWitnessStacks_spec (show parseWitnessStacks bytes ic.1 outs.2 = .ok (wit.1, wit.2) by rw [hwit])
      exact ⟨hm, hr⟩
  obtain ⟨hbl, hbl', hdl⟩ := sliceHex_ok_elim hlock
  refine ⟨wit.2 + 4, by omega, by omega, rfl, rfl, rfl, ?_⟩
  rw [hexChars_slice_split bytes (by omega : pos ≤ pos + ic.2) (by omega : pos + ic.2 ≤ wit.2 + 4),
    hexChars_slice_split bytes (hins1 : pos + ic.2 ≤ ins.2) (by omega : ins.2 ≤ wit.2 + 4),
    hexChars_slice_split bytes (by omega : ins.2 ≤ ins.2 + oc.2) (by omega : ins.2 + oc.2 ≤ wit.2 + 4),
    hexChars_slice_split bytes (houts1 : ins.2 + oc.2 ≤ outs.2) (by omega : outs.2 ≤ wit.2 + 4),
    hexChars_slice_split bytes (hw.1 : outs.2 ≤ wit.2) (by omega : wit.2 ≤ wit.2 + 4)]
  simp [hdc1, hins3, hdc2, houts3, hw.2, hdl]

theorem sliceHex_ok_val {bytes : List Nat} {a b : Nat} {s : String}
    (h : sliceHex bytes a b = .ok s) : s = hexEncode (sliceBytes bytes a b) := by
  unfold sliceHex at h
  split at h
  · cases h; rfl
  · cases h

theorem decodeBytes_ok_cases {bytes : List Nat} {tx : BitcoinTransaction}
    (h : decodeBytes bytes = .ok tx) :
    4 ≤ bytes.length ∧
      ((segwitFlagAt bytes = true ∧
          decodeRest bytes 6 (hexEncode (sliceBytes bytes 0 4))
            (hexEncode (sliceBytes bytes 4 5)) (hexEncode (sliceBytes bytes 5 6)) true = .ok tx) ∨
       (segwitFlagAt bytes = false ∧
          decodeRest bytes 4 (hexEncode (sliceBytes bytes 0 4)) "" "" false = .ok tx)) := by
  unfold decodeBytes at h
  split at h
  · cases h
  · next hlen =>
    obtain ⟨version, hv, h⟩ := pbind_eq_ok h
    have hv' := sliceHex_ok_val hv
    refine ⟨by omega, ?_⟩
    by_cases hsw : segwitFlagAt bytes
    · rw [if_pos hsw] at h
      obtain ⟨m, hm, h⟩ := pbind_eq_ok h
      obtain ⟨f, hf, h⟩ := pbind_eq_ok h
      exact Or.inl ⟨hsw, by rw [← hv', ← sliceHex_ok_val hm, ← sliceHex_ok_val hf]; exact h⟩
    · rw [if_neg hsw] at h
      exact Or.inr ⟨by simpa using hsw, by rw [← hv']; exact h⟩

theorem decodeRest_shape {bytes : List Nat} {pos : Nat} {v m f : String} {sw : Bool}
    {tx : BitcoinTransaction} (h : decodeRest bytes pos v m f sw = .ok tx) :
    ∃ ic ics, read_compact_size bytes pos = .ok (ic, ics) ∧ tx.inputs.length = ic ∧
      (sw = true → tx.witness.length = ic) ∧ (sw = false → tx.witness = []) := by
  unfold decodeRest at h
  obtain ⟨ic, hic, h⟩ := pbind_eq_ok h
  obtain ⟨icount, hicount, h⟩ := pbind_eq_ok h
  obtain ⟨ins, hins, h⟩ := pbind_eq_ok h
  obtain ⟨oc, hoc, h⟩ := pbind_eq_ok h
  obtain ⟨ocount, hocount, h⟩ := pbind_eq_ok h
  obtain ⟨outs, houts, h⟩ := pbind_eq_ok h
  obtain ⟨wit, hwit, h⟩ := pbind_eq_ok h
  split at h
  · cases h
  obtain ⟨lock, hlock, h⟩ := pbind_eq_ok h
  cases h
  obtain ⟨_, hlen, _⟩ :=
    parseInputs_spec (show parseInputs bytes ic.1 (pos + ic.2) = .ok (ins.1, ins.2) by rw [hins])
  refine ⟨ic.1, ic.2, by rw [hic], hlen, ?_, ?_⟩
  · intro hswt
    rw [hswt] at hwit
    simp only [if_true] at hwit
    obtain ⟨_, hwlen, _⟩ :=
      parseWitnessStacks_spec (show parseWitnessStacks bytes ic.1 outs.2 = .ok (wit.1, wit.2) by rw [hwit])
    exact hwlen
  · intro hswf
    rw [hswf] at hwit
    simp only [Bool.false_eq_true, if_false] at hwit
    cases hwit
    rfl

theorem data_hexEncode (l : List Nat) : (hexEncode l).data = hexChars l := rfl

theorem data_empty : ("" : String).data = [] := rfl

theorem decodeBytes_spec {bytes : List Nat} {tx : BitcoinTransaction}
    (h : decodeBytes bytes = .ok tx) :
    ∃ q, 4 ≤ q ∧ q ≤ bytes.length ∧ renderTx tx = hexChars (sliceBytes bytes 0 q) := by
  obtain ⟨hlen, hcase⟩ := decodeBytes_ok_cases h
  rcases hcase with ⟨hsw, hdr⟩ | ⟨hsw, hdr⟩
  · obtain ⟨q, hq1, hq2, hv, hm, hf, hrend⟩ := decodeRest_spec hdr
    refine ⟨q, by omega, hq2, ?_⟩
    rw [hexChars_slice_split bytes (show (0 : Nat) ≤ 4 by omega) (show 4 ≤ q by omega),
      hexChars_slice_split bytes (show (4 : Nat) ≤ 5 by omega) (show 5 ≤ q by omega),
      hexChars_slice_split bytes (show (5 : Nat) ≤ 6 by omega) (show 6 ≤ q by omega)]
    simp only [renderTx, hv, hm, hf, data_hexEncode, List.append_assoc]
    simp only [List.append_assoc] at hrend
    rw [hrend]
  · obtain ⟨q, hq1, hq2, hv, hm, hf, hrend⟩ := decodeRest_spec hdr
    refine ⟨q, by omega, hq2, ?_⟩
    rw [hexChars_slice_split bytes (show (0 : Nat) ≤ 4 by omega) (show 4 ≤ q by omega)]
    simp only [renderTx, hv, hm, hf, data_hexEncode, data_empty, List.nil_append,
      List.append_assoc]
    simp only [List.append_assoc] at hrend
    rw [hrend]

theorem getD_append_left {l e : List Nat} {i : Nat} (hi : i < l.length) :
    (l ++ e).getD i 0 = l.getD i 0 := by
  simp [List.getD_eq_getElem?_getD, List.getElem?_append_left hi]

theorem sliceBytes_append {bytes e : List Nat} {a b : Nat} (hb : b ≤ bytes.length) :
    sliceBytes (bytes ++ e) a b = sliceBytes bytes a b := by
  unfold sliceBytes
  by_cases hab : a ≤ b
  · rw [List.drop_append_of_le_length (by omega), List.take_append_of_le_length (by simp; omega)]
  · have : b - a = 0 := by omega
    simp [this]

theorem sliceHex_ext {bytes e : List Nat} {a b : Nat} {s : String}
    (h : sliceHex bytes a b = .ok s) : sliceHex (bytes ++ e) a b = .ok s := by
  obtain ⟨h1, h2, _⟩ := sliceHex_ok_elim h
  rw [sliceHex_ok h1 (by simp; omega), sliceBytes_append h2]
  rw [sliceHex_ok h1 h2] at h
  exact h

theorem read_compact_size_ext {bytes e : List Nat} {pos : Nat} {r : Nat × Nat}
    (h : read_compact_size bytes pos = .ok r) :
    read_compact_size (bytes ++ e) pos = .ok r := by
  obtain ⟨hp, hs1, hps⟩ := read_compact_size_ok_bounds h
  have hg : ∀ i, i < bytes.length → (bytes ++ e).getD i 0 = bytes.getD i 0 :=
    fun i hi => getD_append_left hi
  unfold read_compact_size at h ⊢
  rw [if_neg (by omega : ¬ bytes.length ≤ pos)] at h
  rw [if_neg (by simp; omega)]
  rw [hg pos hp]
  by_cases h1 : bytes.getD pos 0 ≤ 252
  · rw [if_pos h1] at h ⊢
    exact h
  · rw [if_neg h1] at h ⊢
    by_cases h2 : bytes.getD pos 0 = 253
    · rw [if_pos h2] at h ⊢
      split at h
      · cases h
      · next h3 =>
        rw [if_neg (by simp; omega)]
        rw [hg (pos + 1) (by omega), hg (pos + 2) (by omega)]
        exact h
    · rw [if_neg h2] at h ⊢
      by_cases h4 : bytes.getD pos 0 = 254
      · rw [if_pos h4] at h ⊢
        split at h
        · cases h
        · next h5 =>
          rw [if_neg (by simp; omega)]
          rw [hg (pos + 1) (by omega), hg (pos + 2) (by omega), hg (pos + 3) (by omega),
            hg (pos + 4) (by omega)]
          exact h
      · rw [if_neg h4] at h ⊢
        split at h
        · cases h
        · next h6 =>
          rw [if_neg (by simp; omega)]
          rw [hg (pos + 1) (by omega), hg (pos + 2) (by omega), hg (pos + 3) (by omega),
            hg (pos + 4) (by omega), hg (pos + 5) (by omega), hg (pos + 6) (by omega),
            hg (pos + 7) (by omega), hg (pos + 8) (by omega)]
          exact h

theorem parse_input_ext {bytes e : List Nat} {pos : Nat} {r : TxInput × Nat}
    (h : parse_input bytes pos = .ok r) : parse_input (bytes ++ e) pos = .ok r := by
  unfold parse_input at h ⊢
  split at h
  · cases h
  obtain ⟨txid, hx1, h⟩ := pbind_eq_ok h
  split at h
  · cases h
  obtain ⟨vout, hx2, h⟩ := pbind_eq_ok h
  obtain ⟨cs, hcs, h⟩ := pbind_eq_ok h
  obtain ⟨sss, hx3, h⟩ := pbind_eq_ok h
  split at h
  · cases h
  obtain ⟨ssig, hx4, h⟩ := pbind_eq_ok h
  split at h
  · cases h
  obtain ⟨seq, hx5, h⟩ := pbind_eq_ok h
  rw [if_neg (by simp; omega)]
  simp only [sliceHex_ext hx1, pbind_ok]
  rw [if_neg (by simp; omega)]
  simp only [sliceHex_ext hx2, pbind_ok, read_compact_size_ext hcs, sliceHex_ext hx3]
  rw [if_neg (by simp; omega)]
  simp only [sliceHex_ext hx4, pbind_ok]
  rw [if_neg (by simp; omega)]
  simp only [sliceHex_ext hx5, pbind_ok]
  exact h

theorem parse_output_ext {bytes e : List Nat} {pos : Nat} {r : TxOutput × Nat}
    (h : parse_output bytes pos = .ok r) : parse_output (bytes ++ e) pos = .ok r := by
  unfold parse_output at h ⊢
  split at h
  · cases h
  obtain ⟨amount, hx1, h⟩ := pbind_eq_ok h
  obtain ⟨cs, hcs, h⟩ := pbind_eq_ok h
  obtain ⟨spks, hx2, h⟩ := pbind_eq_ok h
  split at h
  · cases h
  obtain ⟨spk, hx3, h⟩ := pbind_eq_ok h
  rw [if_neg (by simp; omega)]
  simp only [sliceHex_ext hx1, pbind_ok, read_compact_size_ext hcs, sliceHex_ext hx2]
  rw [if_neg (by simp; omega)]
  simp only [sliceHex_ext hx3, pbind_ok]
  exact h

theorem parseInputs_ext {bytes e : List Nat} :
    ∀ {n pos r}, parseInputs bytes n pos = .ok r → parseInputs (bytes ++ e) n pos = .ok r := by
  intro n
  induction n with
  | zero => intro pos r h; exact h
  | succ m ih =>
    intro pos r h
    unfold parseInputs at h ⊢
    obtain ⟨x, hx, h⟩ := pbind_eq_ok h
    obtain ⟨rest, hrest, h⟩ := pbind_eq_ok h
    simp only [parse_input_ext hx, pbind_ok, ih hrest]
    exact h

theorem parseOutputs_ext {bytes e : List Nat} :
    ∀ {n pos r}, parseOutputs bytes n pos = .ok r → parseOutputs (bytes ++ e) n pos = .ok r := by
  intro n
  induction n with
  | zero => intro pos r h; exact h
  | succ m ih =>
    intro pos r h
    unfold parseOutputs at h ⊢
    obtain ⟨x, hx, h⟩ := pbind_eq_ok h
    obtain ⟨rest, hrest, h⟩ := pbind_eq_ok h
    simp only [parse_output_ext hx, pbind_ok, ih hrest]
    exact h

theorem parseWitnessItems_ext {bytes e : List Nat} :
    ∀ {n pos r}, parseWitnessItems bytes n pos = .ok r →
      parseWitnessItems (bytes ++ e) n pos = .ok r := by
  intro n
  induction n with
  | zero => intro pos r h; exact h
  | succ m ih =>
    intro pos r h
    unfold parseWitnessItems at h ⊢
    obtain ⟨cs, hcs, h⟩ := pbind_eq_ok h
    obtain ⟨sh, hsh, h⟩ := pbind_eq_ok h
    split at h
    · cases h
    obtain ⟨itm, hitm, h⟩ := pbind_eq_ok h
    obtain ⟨rest, hrest, h⟩ := pbind_eq_ok h
    simp only [read_compact_size_ext hcs, pbind_ok, sliceHex_ext hsh]
    rw [if_neg (by simp; omega)]
    simp only [sliceHex_ext hitm, pbind_ok, ih hrest]
    exact h

theorem parseWitnessStacks_ext {bytes e : List Nat} :
    ∀ {n pos r}, parseWitnessStacks bytes n pos = .ok r →
      parseWitnessStacks (bytes ++ e) n pos = .ok r := by
  intro n
  induction n with
  | zero => intro pos r h; exact h
  | succ m ih =>
    intro pos r h
    unfold parseWitnessStacks at h ⊢
    obtain ⟨cs, hcs, h⟩ := pbind_eq_ok h
    obtain ⟨sh, hsh, h⟩ := pbind_eq_ok h
    obtain ⟨items, hitems, h⟩ := pbind_eq_ok h
    obtain ⟨rest, hrest, h⟩ := pbind_eq_ok h
    simp only [read_compact_size_ext hcs, pbind_ok, sliceHex_ext hsh,
      parseWitnessItems_ext hitems, ih hrest]
    exact h

theorem decodeRest_ok_len {bytes : List Nat} {pos : Nat} {v m f : String} {sw : Bool}
    {tx : BitcoinTransaction} (h : decodeRest bytes pos v m f sw = .ok tx) :
    pos + 2 ≤ bytes.length := by
  unfold decodeRest at h
  obtain ⟨ic, hic, h⟩ := pbind_eq_ok h
  obtain ⟨icount, hicount, h⟩ := pbind_eq_ok h
  obtain ⟨ins, hins, h⟩ := pbind_eq_ok h
  obtain ⟨oc, hoc, h⟩ := pbind_eq_ok h
  obtain ⟨hic1, hic2, hic3⟩ := read_compact_size_ok_bounds hic
  obtain ⟨hins1, _, _⟩ :=
    parseInputs_spec (show parseInputs bytes ic.1 (pos + ic.2) = .ok (ins.1, ins.2) by rw [hins])
  obtain ⟨hoc1, _, _⟩ := read_compact_size_ok_bounds hoc
  omega

theorem decodeRest_ext {bytes e : List Nat} {pos : Nat} {v m f : String} {sw : Bool}
    {tx : BitcoinTransaction} (h : decodeRest bytes pos v m f sw = .ok tx) :
    decodeRest (bytes ++ e) pos v m f sw = .ok tx := by
  unfold decodeRest at h ⊢
  obtain ⟨ic, hic, h⟩ := pbind_eq_ok h
  obtain ⟨icount, hicount, h⟩ := pbind_eq_ok h
  obtain ⟨ins, hins, h⟩ := pbind_eq_ok h
  obtain ⟨oc, hoc, h⟩ := pbind_eq_ok h
  obtain ⟨ocount, hocount, h⟩ := pbind_eq_ok h
  obtain ⟨outs, houts, h⟩ := pbind_eq_ok h
  obtain ⟨wit, hwit, h⟩ := pbind_eq_ok h
  split at h
  · cases h
  obtain ⟨lock, hlock, h⟩ := pbind_eq_ok h
  have hwit' : (if sw = true then parseWitnessStacks (bytes ++ e) ic.1 outs.2
      else Except.ok ([], outs.2)) = .ok wit := by
    cases sw with
    | false => simpa using hwit
    | true =>
      simp only [if_true] at hwit ⊢
      exact parseWitnessStacks_ext hwit
  simp only [read_compact_size_ext hic, pbind_ok, sliceHex_ext hicount,
    parseInputs_ext hins, read_compact_size_ext hoc, sliceHex_ext hocount,
    parseOutputs_ext houts, hwit']
  rw [if_neg (by simp; omega)]
  simp only [sliceHex_ext hlock, pbind_ok]
  exact h

theorem segwitFlagAt_ext {bytes e : List Nat} (h6 : 6 ≤ bytes.length) :
    segwitFlagAt (bytes ++ e) = segwitFlagAt bytes := by
  unfold segwitFlagAt
  rw [getD_append_left (by omega), getD_append_left (by omega)]
  have h6' : 6 ≤ bytes.length + e.length := by omega
  simp [h6, h6']

theorem sliceBytes_singleton {bytes : List Nat} {a : Nat} (h : a < bytes.length) :
    sliceBytes bytes a (a + 1) = [bytes.getD a 0] := by
  unfold sliceBytes
  have h1 : a + 1 - a = 1 := by omega
  rw [h1, List.drop_eq_getElem_cons h, List.getD_eq_getElem bytes 0 h]
  rfl

theorem getD_lt_of_wf {bytes : List Nat} (hwf : ∀ b ∈ bytes, b < 256) (i : Nat) :
    bytes.getD i 0 < 256 := by
  by_cases hi : i < bytes.length
  · rw [List.getD_eq_getElem bytes 0 hi]
    exact hwf _ (List.getElem_mem hi)
  · rw [List.getD_eq_default bytes 0 (by omega)]
    omega

theorem read_compact_size_ok_lt {bytes : List Nat} {pos c s : Nat}
    (hwf : ∀ b ∈ bytes, b < 256) (h : read_compact_size bytes pos = .ok (c, s)) :
    c < 2 ^ 64 := by
  have g1 := getD_lt_of_wf hwf (pos + 1)
  have g2 := getD_lt_of_wf hwf (pos + 2)
  have g3 := getD_lt_of_wf hwf (pos + 3)
  have g4 := getD_lt_of_wf hwf (pos + 4)
  have g5 := getD_lt_of_wf hwf (pos + 5)
  have g6 := getD_lt_of_wf hwf (pos + 6)
  have g7 := getD_lt_of_wf hwf (pos + 7)
  have g8 := getD_lt_of_wf hwf (pos + 8)
  have g0 := getD_lt_of_wf hwf pos
  rcases read_compact_size_cases h with ⟨_, _, _, hc⟩ | ⟨_, _, _, hc⟩ |
    ⟨_, _, _, hc⟩ | ⟨_, _, _, _, _, hc⟩ <;> subst hc <;> omega

theorem hexDecode_none_iff :
    ∀ t : List Char, (hexDecode t = none ↔
      ¬ (t.length % 2 = 0 ∧ ∀ c ∈ t, (hexDigitVal c).isSome))
  | [] => by simp [hexDecode]
  | [c] => by simp [hexDecode]
  | c1 :: c2 :: rest => by
    have ih := hexDecode_none_iff rest
    constructor
    · intro h hall
      obtain ⟨hl, hmem⟩ := hall
      obtain ⟨v1, hv1⟩ := Option.isSome_iff_exists.mp (hmem c1 (by simp))
      obtain ⟨v2, hv2⟩ := Option.isSome_iff_exists.mp (hmem c2 (by simp))
      have hrest : hexDecode rest = none := by
        cases hr : hexDecode rest with
        | none => rfl
        | some bs =>
          unfold hexDecode at h
          rw [hv1, hv2, hr] at h
          cases h
      refine ih.mp hrest ⟨?_, ?_⟩
      · simp only [List.length_cons] at hl
        omega
      · intro c hc
        exact hmem c (by simp [hc])
    · intro h
      cases hv1 : hexDigitVal c1 with
      | none => simp [hexDecode, hv1]
      | some v1 =>
        cases hv2 : hexDigitVal c2 with
        | none => simp [hexDecode, hv1, hv2]
        | some v2 =>
          cases hr : hexDecode rest with
          | none => simp [hexDecode, hv1, hv2, hr]
          | some bs =>
            exfalso
            apply h
            have hrest : ¬ hexDecode rest = none := by rw [hr]; simp
            have hR := not_not.mp (fun hn => hrest (ih.mpr hn))
            obtain ⟨hl, hmem⟩ := hR
            refine ⟨by simp only [List.length_cons]; omega, ?_⟩
            intro c hc
            rcases List.mem_cons.mp hc with rfl | hc2
            · simp [hv1]
            · rcases List.mem_cons.mp hc2 with rfl | hc3
              · simp [hv2]
              · exact hmem c hc3

/-- C1: decoding the literal 223-byte segwit transaction hex from the
reference test succeeds and returns exactly the reference structured
record (version "02000000", marker "00", flag "01", one input with the
listed txid/vout/empty scriptSig/sequence, two outputs with the listed
amounts and scriptPubKeys, one witness stack of two items keyed by
positions 0 (size "47") and 1 (size "21"), locktime "43030e00"). -/
theorem c1_reference_transaction_decode :
    btc_tx_decoder "0200000000010131811cd355c357e0e01437d9bcf690df824e9ff785012b6115dfae3d8e8b36c10100000000fdffffff0220a107000000000016001485d78eb795bd9c8a21afefc8b6fdaedf718368094c08100000000000160014840ab165c9c2555d4a31b9208ad806f89d2535e20247304402207bce86d430b58bb6b79e8c1bbecdf67a530eff3bc61581a1399e0b28a741c0ee0220303d5ce926c60bf15577f2e407f28a2ef8fe8453abd4048b716e97dbb1e3a85c01210260828bc77486a55e3bc6032ccbeda915d9494eda17b4a54dbe3b24506d40e4ff43030e00" =
      .ok { version := "02000000", marker := "00", flag := "01", inputcount := "01",
            inputs := [{ txid := "31811cd355c357e0e01437d9bcf690df824e9ff785012b6115dfae3d8e8b36c1",
                         vout := "01000000", scriptsigsize := "00", scriptsig := "",
                         sequence := "fdffffff" }],
            outputcount := "02",
            outputs := [{ amount := "20a1070000000000", scriptpubkeysize := "16",
                          scriptpubkey := "001485d78eb795bd9c8a21afefc8b6fdaedf71836809" },
                        { amount := "4c08100000000000", scriptpubkeysize := "16",
                          scriptpubkey := "0014840ab165c9c2555d4a31b9208ad806f89d2535e2" }],
            witness := [{ stackitems := "02",
                          items := [{ size := "47",
                                      item := "304402207bce86d430b58bb6b79e8c1bbecdf67a530eff3bc61581a1399e0b28a741c0ee0220303d5ce926c60bf15577f2e407f28a2ef8fe8453abd4048b716e97dbb1e3a85c01" },
                                    { size := "21",
                                      item := "0260828bc77486a55e3bc6032ccbeda915d9494eda17b4a54dbe3b24506d40e4ff" }] }],
            locktime := "43030e00" } := by
  decide

/-- C2: the compact-length reader returns (count, bytes consumed): a
first byte in `[0, 0xFC]` is the count itself with 1 byte consumed; 0xFD
takes the next 2 bytes little-endian with 3 consumed; 0xFE the next 4
with 5 consumed; 0xFF the next 8 with 9 consumed; it fails with the
truncation error exactly when the cursor is at or past the buffer end or
the follow-up bytes are unavailable.  The boundary encodings of 0, 252,
253 and 65536 decode with consumed widths 1, 1, 3 and 5. -/
theorem c2_read_compact_size_spec (bytes : List Nat) (pos : Nat) :
    (bytes.length ≤ pos →
      read_compact_size bytes pos = .error (.msg "Invalid compact size")) ∧
    (pos < bytes.length → bytes.getD pos 0 ≤ 0xfc →
      read_compact_size bytes pos = .ok (bytes.getD pos 0, 1)) ∧
    (pos < bytes.length → bytes.getD pos 0 = 0xfd →
      (pos + 3 ≤ bytes.length →
        read_compact_size bytes pos =
          .ok (bytes.getD (pos + 1) 0 + 256 * bytes.getD (pos + 2) 0, 3)) ∧
      (bytes.length < pos + 3 →
        read_compact_size bytes pos = .error (.msg "Invalid compact size"))) ∧
    (pos < bytes.length → bytes.getD pos 0 = 0xfe →
      (pos + 5 ≤ bytes.length →
        read_compact_size bytes pos =
          .ok (bytes.getD (pos + 1) 0 + 256 * bytes.getD (pos + 2) 0 +
            65536 * bytes.getD (pos + 3) 0 + 16777216 * bytes.getD (pos + 4) 0, 5)) ∧
      (bytes.length < pos + 5 →
        read_compact_size bytes pos = .error (.msg "Invalid compact size"))) ∧
    (pos < bytes.length → bytes.getD pos 0 = 0xff →
      (pos + 9 ≤ bytes.length →
        read_compact_size bytes pos =
          .ok (bytes.getD (pos + 1) 0 + 256 * bytes.getD (pos + 2) 0 +
            65536 * bytes.getD (pos + 3) 0 + 16777216 * bytes.getD (pos + 4) 0 +
            4294967296 * bytes.getD (pos + 5) 0 + 1099511627776 * bytes.getD (pos + 6) 0 +
            281474976710656 * bytes.getD (pos + 7) 0 +
            72057594037927936 * bytes.getD (pos + 8) 0, 9)) ∧
      (bytes.length < pos + 9 →
        read_compact_size bytes pos = .error (.msg "Invalid compact size"))) ∧
    read_compact_size [0x00] 0 = .ok (0, 1) ∧
    read_compact_size [0xfc] 0 = .ok (252, 1) ∧
    read_compact_size [0xfd, 0xfd, 0x00] 0 = .ok (253, 3) ∧
    read_compact_size [0xfe, 0x00, 0x00, 0x01, 0x00] 0 = .ok (65536, 5) := by
  refine ⟨?_, ?_, ?_, ?_, ?_, by decide, by decide, by decide, by decide⟩
  · intro h
    unfold read_compact_size
    rw [if_pos h]
  · intro h1 h2
    unfold read_compact_size
    rw [if_neg (by omega), if_pos h2]
  · intro h1 h2
    refine ⟨fun h3 => ?_, fun h3 => ?_⟩ <;>
      (unfold read_compact_size
       rw [if_neg (by omega), if_neg (by omega), if_pos h2])
    · rw [if_neg (by omega)]
    · rw [if_pos (by omega)]
  · intro h1 h2
    refine ⟨fun h3 => ?_, fun h3 => ?_⟩ <;>
      (unfold read_compact_size
       rw [if_neg (by omega), if_neg (by omega), if_neg (by omega), if_pos h2])
    · rw [if_neg (by omega)]
    · rw [if_pos (by omega)]
  · intro h1 h2
    refine ⟨fun h3 => ?_, fun h3 => ?_⟩ <;>
      (unfold read_compact_size
       rw [if_neg (by omega), if_neg (by omega), if_neg (by omega), if_neg (by omega)])
    · rw [if_neg (by omega)]
    · rw [if_pos (by omega)]

/-- Witness for C2 at the concrete 0xFD encoding `[0xfd, 0x00, 0x01]`. -/
theorem c2_witness : read_compact_size [0xfd, 0x00, 0x01] 0 = .ok (256, 3) :=
  ((c2_read_compact_size_spec [0xfd, 0x00, 0x01] 0).2.2.1 (by decide) (by decide)).1 (by decide)

/-- C3: for every byte buffer on which decoding succeeds, concatenating
in wire order the hex text of every emitted field (rendered by
`renderTx`) reproduces exactly the lowercase hex encoding of the bytes
consumed from the buffer — the initial segment of length
`(renderTx tx).length / 2`. -/
theorem c3_render_roundtrip (bytes : List Nat) (tx : BitcoinTransaction)
    (h : decodeBytes bytes = .ok tx) :
    (renderTx tx).length % 2 = 0 ∧
    (renderTx tx).length / 2 ≤ bytes.length ∧
    renderTx tx = hexChars (sliceBytes bytes 0 ((renderTx tx).length / 2)) := by
  obtain ⟨q, hq4, hqlen, hrend⟩ := decodeBytes_spec h
  have hlen2 : (renderTx tx).length = 2 * (q - 0) := by
    rw [hrend, hexChars_length, sliceBytes_length hqlen]
  have hq2 : (renderTx tx).length / 2 = q := by omega
  rw [hq2]
  exact ⟨by omega, by omega, hrend⟩

/-- Witness for C3 at a concrete 10-byte legacy transaction. -/
theorem c3_witness :
    (renderTx { version := "00000000", marker := "", flag := "", inputcount := "00",
                inputs := [], outputcount := "00", outputs := [], witness := [],
                locktime := "00000000" }).length % 2 = 0 ∧
    (renderTx { version := "00000000", marker := "", flag := "", inputcount := "00",
                inputs := [], outputcount := "00", outputs := [], witness := [],
                locktime := "00000000" }).length / 2 ≤ (List.replicate 10 0).length ∧
    renderTx { version := "00000000", marker := "", flag := "", inputcount := "00",
               inputs := [], outputcount := "00", outputs := [], witness := [],
               locktime := "00000000" } =
      hexChars (sliceBytes (List.replicate 10 0) 0
        ((renderTx { version := "00000000", marker := "", flag := "", inputcount := "00",
                     inputs := [], outputcount := "00", outputs := [], witness := [],
                     locktime := "00000000" }).length / 2)) :=
  c3_render_roundtrip (List.replicate 10 0)
    { version := "00000000", marker := "", flag := "", inputcount := "00",
      inputs := [], outputcount := "00", outputs := [], witness := [],
      locktime := "00000000" } (by decide)

/-- C4: after removing space characters, decode fails with the
InvalidHex error exactly when the remaining text has odd length or
contains a character that is not a hex digit; otherwise hex
normalization succeeds and the decoder proceeds on the decoded byte
sequence. -/
theorem c4_invalid_hex (input : String) :
    (¬ ((input.data.filter fun c => c ≠ ' ').length % 2 = 0 ∧
        ∀ c ∈ input.data.filter fun c => c ≠ ' ', (hexDigitVal c).isSome) →
      btc_tx_decoder input = .error (.msg "Invalid hex")) ∧
    (((input.data.filter fun c => c ≠ ' ').length % 2 = 0 ∧
        ∀ c ∈ input.data.filter fun c => c ≠ ' ', (hexDigitVal c).isSome) →
      ∃ bs, hexDecode (input.data.filter fun c => c ≠ ' ') = some bs ∧
        btc_tx_decoder input = decodeBytes bs) := by
  constructor
  · intro h
    have hn := (hexDecode_none_iff _).mpr h
    unfold btc_tx_decoder
    rw [hn]
  · intro h
    cases hd : hexDecode (input.data.filter fun c => c ≠ ' ') with
    | none => exact absurd h ((hexDecode_none_iff _).mp hd)
    | some bs =>
      refine ⟨bs, rfl, ?_⟩
      unfold btc_tx_decoder
      rw [hd]

/-- Witness for C4: `"0z"` is rejected as invalid hex, `"00ff"` is
normalized to the bytes `[0x00, 0xff]`. -/
theorem c4_witness :
    btc_tx_decoder "0z" = .error (.msg "Invalid hex") ∧
    btc_tx_decoder "00ff" = decodeBytes [0x00, 0xff] := by
  constructor
  · exact (c4_invalid_hex "0z").1 (by decide)
  · obtain ⟨bs, hbs, heq⟩ := (c4_invalid_hex "00ff").2 (by decide)
    have hbs2 : hexDecode ("00ff".data.filter fun c => c ≠ ' ') = some [0x00, 0xff] := by
      decide
    rw [hbs] at hbs2
    rw [heq, Option.some.inj hbs2]

/-- C5: on every successful decode, if the 5th and 6th bytes are exactly
0x00 then 0x01 they are recorded as marker "00" and flag "01", two bytes
are consumed (the remainder is parsed from cursor 6 in segwit mode);
otherwise marker and flag are empty strings and the witness sequence is
empty, regardless of the input count. -/
theorem c5_segwit_detection (bytes : List Nat) (tx : BitcoinTransaction)
    (h : decodeBytes bytes = .ok tx) :
    (segwitFlagAt bytes = true → tx.marker = "00" ∧ tx.flag = "01" ∧
      decodeRest bytes 6 tx.version "00" "01" true = .ok tx) ∧
    (segwitFlagAt bytes = false → tx.marker = "" ∧ tx.flag = "" ∧ tx.witness = []) := by
  obtain ⟨h4, hcase⟩ := decodeBytes_ok_cases h
  rcases hcase with ⟨hsw, hdr⟩ | ⟨hsw, hdr⟩
  · have hsw' := hsw
    unfold segwitFlagAt at hsw'
    simp only [Bool.and_eq_true, decide_eq_true_eq, beq_iff_eq] at hsw'
    obtain ⟨⟨h6, hb4⟩, hb5⟩ := hsw'
    have h45 : sliceBytes bytes 4 5 = [bytes.getD 4 0] := by
      rw [show (5 : Nat) = 4 + 1 from rfl]
      exact sliceBytes_singleton (by omega)
    have h56 : sliceBytes bytes 5 6 = [bytes.getD 5 0] := by
      rw [show (6 : Nat) = 5 + 1 from rfl]
      exact sliceBytes_singleton (by omega)
    have hm : hexEncode (sliceBytes bytes 4 5) = "00" := by
      rw [h45, hb4]; decide
    have hf : hexEncode (sliceBytes bytes 5 6) = "01" := by
      rw [h56, hb5]; decide
    rw [hm, hf] at hdr
    obtain ⟨q, _, _, hv, hmk, hfl, _⟩ := decodeRest_spec hdr
    constructor
    · intro _
      refine ⟨hmk, hfl, ?_⟩
      rw [hv]
      exact hdr
    · intro hc
      rw [hsw] at hc
      cases hc
  · obtain ⟨q, _, _, hv, hmk, hfl, _⟩ := decodeRest_spec hdr
    obtain ⟨ic, ics, hic, hil, hwt, hwf⟩ := decodeRest_shape hdr
    constructor
    · intro hc
      rw [hsw] at hc
      cases hc
    · intro _
      exact ⟨hmk, hfl, hwf rfl⟩

/-- Witness for C5: a minimal 12-byte segwit buffer (marker/flag present)
and the 10-byte legacy buffer (marker/flag absent). -/
theorem c5_witness :
    (({ version := "00000000", marker := "00", flag := "01", inputcount := "00",
        inputs := [], outputcount := "00", outputs := [], witness := [],
        locktime := "00000000" } : BitcoinTransaction).marker = "00" ∧
     ({ version := "00000000", marker := "00", flag := "01", inputcount := "00",
        inputs := [], outputcount := "00", outputs := [], witness := [],
        locktime := "00000000" } : BitcoinTransaction).flag = "01" ∧
     decodeRest [0, 0, 0, 0, 0, 1, 0, 0, 0, 0, 0, 0] 6
        ({ version := "00000000", marker := "00", flag := "01", inputcount := "00",
           inputs := [], outputcount := "00", outputs := [], witness := [],
           locktime := "00000000" } : BitcoinTransaction).version "00" "01" true =
        .ok { version := "00000000", marker := "00", flag := "01", inputcount := "00",
              inputs := [], outputcount := "00", outputs := [], witness := [],
              locktime := "00000000" }) ∧
    (({ version := "00000000", marker := "", flag := "", inputcount := "00",
        inputs := [], outputcount := "00", outputs := [], witness := [],
        locktime := "00000000" } : BitcoinTransaction).marker = "" ∧
     ({ version := "00000000", marker := "", flag := "", inputcount := "00",
        inputs := [], outputcount := "00", outputs := [], witness := [],
        locktime := "00000000" } : BitcoinTransaction).flag = "" ∧
     ({ version := "00000000", marker := "", flag := "", inputcount := "00",
        inputs := [], outputcount := "00", outputs := [], witness := [],
        locktime := "00000000" } : BitcoinTransaction).witness = []) := by
  constructor
  · exact (c5_segwit_detection [0, 0, 0, 0, 0, 1, 0, 0, 0, 0, 0, 0]
      { version := "00000000", marker := "00", flag := "01", inputcount := "00",
        inputs := [], outputcount := "00", outputs := [], witness := [],
        locktime := "00000000" } (by decide)).1 (by decide)
  · exact (c5_segwit_detection (List.replicate 10 0)
      { version := "00000000", marker := "", flag := "", inputcount := "00",
        inputs := [], outputcount := "00", outputs := [], witness := [],
        locktime := "00000000" } (by decide)).2 (by decide)

/-- C8: on every successful decode, the number of parsed inputs equals
the decoded input count; when the buffer is segwit the number of witness
stacks also equals that count (one stack per input), and when it is not
segwit the witness sequence is empty. -/
theorem c8_witness_stack_count (bytes : List Nat) (tx : BitcoinTransaction) (ic w : Nat)
    (h : decodeBytes bytes = .ok tx)
    (hc : read_compact_size bytes (if segwitFlagAt bytes then 6 else 4) = .ok (ic, w)) :
    tx.inputs.length = ic ∧
    (segwitFlagAt bytes = true → tx.witness.length = ic) ∧
    (segwitFlagAt bytes = false → tx.witness = []) := by
  obtain ⟨h4, hcase⟩ := decodeBytes_ok_cases h
  rcases hcase with ⟨hsw, hdr⟩ | ⟨hsw, hdr⟩
  · rw [hsw] at hc
    simp only [if_true] at hc
    obtain ⟨ic', ics', hic', hil, hwt, hwf⟩ := decodeRest_shape hdr
    rw [hic'] at hc
    simp only [Except.ok.injEq, Prod.mk.injEq] at hc
    obtain ⟨hA, hB⟩ := hc
    subst hA
    exact ⟨hil, fun _ => hwt rfl, fun hcf => by rw [hsw] at hcf; cases hcf⟩
  · rw [hsw] at hc
    simp only [Bool.false_eq_true, if_false] at hc
    obtain ⟨ic', ics', hic', hil, hwt, hwf⟩ := decodeRest_shape hdr
    rw [hic'] at hc
    simp only [Except.ok.injEq, Prod.mk.injEq] at hc
    obtain ⟨hA, hB⟩ := hc
    subst hA
    refine ⟨hil, fun hct => ?_, fun _ => hwf rfl⟩
    rw [hsw] at hct
    cases hct

/-- Witness for C8 at a 56-byte segwit buffer with one input and one
single-item witness stack. -/
theorem c8_witness :
    ({ version := "00000000", marker := "00", flag := "01", inputcount := "01",
       inputs := [{ txid := "0000000000000000000000000000000000000000000000000000000000000000",
                    vout := "00000000", scriptsigsize := "00", scriptsig := "",
                    sequence := "00000000" }],
       outputcount := "00", outputs := [],
       witness := [{ stackitems := "01", items := [{ size := "01", item := "aa" }] }],
       locktime := "00000000" } : BitcoinTransaction).inputs.length = 1 ∧
    (segwitFlagAt ([0, 0, 0, 0, 0, 1, 1] ++ List.replicate 36 0 ++ [0] ++
        List.replicate 4 0 ++ [0] ++ [1, 1, 0xaa] ++ List.replicate 4 0) = true →
      ({ version := "00000000", marker := "00", flag := "01", inputcount := "01",
         inputs := [{ txid := "0000000000000000000000000000000000000000000000000000000000000000",
                      vout := "00000000", scriptsigsize := "00", scriptsig := "",
                      sequence := "00000000" }],
         outputcount := "00", outputs := [],
         witness := [{ stackitems := "01", items := [{ size := "01", item := "aa" }] }],
         locktime := "00000000" } : BitcoinTransaction).witness.length = 1) ∧
    (segwitFlagAt ([0, 0, 0, 0, 0, 1, 1] ++ List.replicate 36 0 ++ [0] ++
        List.replicate 4 0 ++ [0] ++ [1, 1, 0xaa] ++ List.replicate 4 0) = false →
      ({ version := "00000000", marker := "00", flag := "01", inputcount := "01",
         inputs := [{ txid := "0000000000000000000000000000000000000000000000000000000000000000",
                      vout := "00000000", scriptsigsize := "00", scriptsig := "",
                      sequence := "00000000" }],
         outputcount := "00", outputs := [],
         witness := [{ stackitems := "01", items := [{ size := "01", item := "aa" }] }],
         locktime := "00000000" } : BitcoinTransaction).witness = []) :=
  c8_witness_stack_count
    ([0, 0, 0, 0, 0, 1, 1] ++ List.replicate 36 0 ++ [0] ++ List.replicate 4 0 ++ [0] ++
      [1, 1, 0xaa] ++ List.replicate 4 0)
    { version := "00000000", marker := "00", flag := "01", inputcount := "01",
      inputs := [{ txid := "0000000000000000000000000000000000000000000000000000000000000000",
                   vout := "00000000", scriptsigsize := "00", scriptsig := "",
                   sequence := "00000000" }],
      outputcount := "00", outputs := [],
      witness := [{ stackitems := "01", items := [{ size := "01", item := "aa" }] }],
      locktime := "00000000" } 1 1 (by decide) (by decide)

/-- C9 (code bug): decoding this 50-byte transaction whose scriptSig
compact length is `0xFFFFFFFFFFFFFFFF` makes the Rust code panic: the
bounds check `offset + script_sig_len > bytes.len()` wraps around the
64-bit machine word (49 for offset 50), the check passes, and the slice
`&bytes[50..49]` aborts (in debug builds the addition itself panics), so
decode neither returns a record nor an error. -/
theorem c9_overflow_crash :
    btc_tx_decoder "0100000001000000000000000000000000000000000000000000000000000000000000000000000000ffffffffffffffffff" =
      .error PErr.crash := by
  decide

/-- C10: trailing bytes after the locktime are silently ignored — any
successful decode stays successful, with the identical record, when
arbitrary extra bytes are appended to the buffer. -/
theorem c10_trailing_bytes (bytes extra : List Nat) (tx : BitcoinTransaction)
    (h : decodeBytes bytes = .ok tx) : decodeBytes (bytes ++ extra) = .ok tx := by
  obtain ⟨h4, hcase⟩ := decodeBytes_ok_cases h
  have h6 : 6 ≤ bytes.length := by
    rcases hcase with ⟨hsw, hdr⟩ | ⟨hsw, hdr⟩
    · unfold segwitFlagAt at hsw
      simp only [Bool.and_eq_true, decide_eq_true_eq, beq_iff_eq] at hsw
      exact hsw.1.1
    · have := decodeRest_ok_len hdr
      omega
  unfold decodeBytes
  rw [if_neg (by simp; omega), segwitFlagAt_ext h6]
  rcases hcase with ⟨hsw, hdr⟩ | ⟨hsw, hdr⟩
  · rw [hsw]
    simp only [sliceHex_ext (sliceHex_ok (by omega : (0 : Nat) ≤ 4) (by omega : 4 ≤ bytes.length)),
      pbind_ok, if_true,
      sliceHex_ext (sliceHex_ok (by omega : (4 : Nat) ≤ 5) (by omega : 5 ≤ bytes.length)),
      sliceHex_ext (sliceHex_ok (by omega : (5 : Nat) ≤ 6) (by omega : 6 ≤ bytes.length))]
    exact decodeRest_ext hdr
  · rw [hsw]
    simp only [sliceHex_ext (sliceHex_ok (by omega : (0 : Nat) ≤ 4) (by omega : 4 ≤ bytes.length)),
      pbind_ok, Bool.false_eq_true, if_false]
    exact decodeRest_ext hdr

/-- Witness for C10: the 10-byte legacy buffer with two junk bytes
appended decodes to the same record. -/
theorem c10_witness :
    decodeBytes (List.replicate 10 0 ++ [0xde, 0xad]) =
      .ok { version := "00000000", marker := "", flag := "", inputcount := "00",
            inputs := [], outputcount := "00", outputs := [], witness := [],
            locktime := "00000000" } :=
  c10_trailing_bytes (List.replicate 10 0) [0xde, 0xad]
    { version := "00000000", marker := "", flag := "", inputcount := "00",
      inputs := [], outputcount := "00", outputs := [], witness := [],
      locktime := "00000000" } (by decide)

/-- C6 (amended): the input parser reads txid, vout, compact-length
prefixed scriptSig and sequence in fixed order behind bounds checks that
fail with the field-naming truncation errors, and on success consumes
`40 + prefix width + declared scriptSig length` bytes — provided the sum
`cursor + 36 + width + declared length` stays below `2 ^ 64`; when that
sum overflows the 64-bit machine word the slice indexing panics instead
of returning an error (see the counterexample). -/
theorem c6_parse_input_spec :
    (∀ (bytes : List Nat) (pos : Nat), bytes.length < pos + 32 →
      parse_input bytes pos = .error (.msg "Invalid input: txid too short")) ∧
    (∀ (bytes : List Nat) (pos : Nat), pos + 32 ≤ bytes.length → bytes.length < pos + 36 →
      parse_input bytes pos = .error (.msg "Invalid input: vout too short")) ∧
    (∀ (bytes : List Nat) (pos : Nat) (e : PErr), pos + 36 ≤ bytes.length →
      read_compact_size bytes (pos + 36) = .error e → parse_input bytes pos = .error e) ∧
    (∀ (bytes : List Nat) (pos L s : Nat),
      read_compact_size bytes (pos + 36) = .ok (L, s) →
      pos + 36 + s + L < 2 ^ 64 → bytes.length < pos + 36 + s + L →
      parse_input bytes pos = .error (.msg "Invalid input: script_sig too short")) ∧
    (∀ (bytes : List Nat) (pos L s : Nat),
      read_compact_size bytes (pos + 36) = .ok (L, s) →
      pos + 36 + s + L < 2 ^ 64 → pos + 36 + s + L ≤ bytes.length →
      bytes.length < pos + 36 + s + L + 4 →
      parse_input bytes pos = .error (.msg "Invalid input: sequence too short")) ∧
    (∀ (bytes : List Nat) (pos L s : Nat) (inp : TxInput) (sz : Nat),
      (∀ b ∈ bytes, b < 256) →
      parse_input bytes pos = .ok (inp, sz) →
      read_compact_size bytes (pos + 36) = .ok (L, s) →
      sz = 40 + s + L) := by
  refine ⟨?_, ?_, ?_, ?_, ?_, ?_⟩
  · intro bytes pos h
    unfold parse_input
    rw [if_pos h]
  · intro bytes pos h1 h2
    unfold parse_input
    rw [if_neg (by omega)]
    simp only [sliceHex_ok (by omega : pos ≤ pos + 32) h1, pbind_ok]
    rw [if_pos h2]
  · intro bytes pos e h1 h2
    unfold parse_input
    rw [if_neg (by omega)]
    simp only [sliceHex_ok (by omega : pos ≤ pos + 32)
      (by omega : pos + 32 ≤ bytes.length), pbind_ok]
    rw [if_neg (by omega)]
    simp only [sliceHex_ok (by omega : pos + 32 ≤ pos + 36) h1, pbind_ok, h2, pbind_error]
  · intro bytes pos L s hrcs hno hshort
    obtain ⟨hp, hs1, hps⟩ := read_compact_size_ok_bounds hrcs
    have hw : w64 (pos + 36 + s + L) = pos + 36 + s + L := Nat.mod_eq_of_lt hno
    unfold parse_input
    rw [if_neg (by omega)]
    simp only [sliceHex_ok (by omega : pos ≤ pos + 32)
      (by omega : pos + 32 ≤ bytes.length), pbind_ok]
    rw [if_neg (by omega)]
    simp only [sliceHex_ok (by omega : pos + 32 ≤ pos + 36)
      (by omega : pos + 36 ≤ bytes.length), pbind_ok,
      hrcs, sliceHex_ok (by omega : pos + 36 ≤ pos + 36 + s) hps]
    rw [if_pos (by rw [hw]; omega)]
  · intro bytes pos L s hrcs hno hlong hshort
    obtain ⟨hp, hs1, hps⟩ := read_compact_size_ok_bounds hrcs
    have hw : w64 (pos + 36 + s + L) = pos + 36 + s + L := Nat.mod_eq_of_lt hno
    unfold parse_input
    rw [if_neg (by omega)]
    simp only [sliceHex_ok (by omega : pos ≤ pos + 32)
      (by omega : pos + 32 ≤ bytes.length), pbind_ok]
    rw [if_neg (by omega)]
    simp only [sliceHex_ok (by omega : pos + 32 ≤ pos + 36)
      (by omega : pos + 36 ≤ bytes.length), pbind_ok,
      hrcs, sliceHex_ok (by omega : pos + 36 ≤ pos + 36 + s) hps]
    rw [if_neg (by rw [hw]; omega), hw]
    simp only [sliceHex_ok (by omega : pos + 36 + s ≤ pos + 36 + s + L)
      (by omega : pos + 36 + s + L ≤ bytes.length), pbind_ok]
    rw [if_pos (by omega)]
  · intro bytes pos L s inp sz hwf h hrcs
    unfold parse_input at h
    split at h
    · cases h
    obtain ⟨txid, hx1, h⟩ := pbind_eq_ok h
    split at h
    · cases h
    obtain ⟨vout, hx2, h⟩ := pbind_eq_ok h
    obtain ⟨cs, hcs, h⟩ := pbind_eq_ok h
    have hcseq : cs = (L, s) := by
      rw [hcs] at hrcs
      exact (Except.ok.inj hrcs)
    subst hcseq
    obtain ⟨sss, hx3, h⟩ := pbind_eq_ok h
    split at h
    · cases h
    obtain ⟨ssig, hx4, h⟩ := pbind_eq_ok h
    split at h
    · cases h
    obtain ⟨seq, hx5, h⟩ := pbind_eq_ok h
    cases h
    obtain ⟨hb4, hb4', _⟩ := sliceHex_ok_elim hx4
    have hL : L < 2 ^ 64 := read_compact_size_ok_lt hwf hrcs
    simp only [w64] at hb4 ⊢
    omega

/-- Counterexample for C6 as stated: at this 45-byte buffer the declared
scriptSig length 0xFFFFFFFFFFFFFFFF exceeds the remaining buffer (a
shortfall), but `offset + script_sig_len` wraps to 44 < offset 45, the
bounds check passes, and the slice `&bytes[45..44]` panics — the parser
crashes instead of returning the claimed TruncatedInput error. -/
theorem c6_counterexample :
    parse_input (List.replicate 36 0 ++ 0xff :: List.replicate 8 0xff) 0 =
      .error PErr.crash := by
  decide

/-- Witness for C6 at concrete inputs: the empty buffer fails naming
txid, and a well-formed 42-byte input consumes 41 = 40 + 1 + 0 bytes. -/
theorem c6_witness :
    parse_input [] 0 = .error (.msg "Invalid input: txid too short") ∧
    parse_input ([0x01] ++ List.replicate 41 0 ++ [0x00]) 1 =
      .ok ({ txid := "0000000000000000000000000000000000000000000000000000000000000000",
             vout := "00000000", scriptsigsize := "00", scriptsig := "",
             sequence := "00000000" }, 41) ∧
    (41 : Nat) = 40 + 1 + 0 := by
  refine ⟨c6_parse_input_spec.1 [] 0 (by decide), by decide, ?_⟩
  exact c6_parse_input_spec.2.2.2.2.2 ([0x01] ++ List.replicate 41 0 ++ [0x00]) 1 0 1
    { txid := "0000000000000000000000000000000000000000000000000000000000000000",
      vout := "00000000", scriptsigsize := "00", scriptsig := "",
      sequence := "00000000" } 41 (by decide) (by decide) (by decide)

/-- C7 (amended): in the witness section, a stack item whose declared
length exceeds the remaining buffer fails with the InvalidWitness error
provided `cursor + width + length` stays below `2 ^ 64` (when the sum
overflows the 64-bit machine word the slice indexing panics instead —
see the counterexample); a compact-size shortfall inside the witness
section propagates its TruncatedInput error; and a witness-section error
is propagated by the decoder as its sole result, with no partial
record. -/
theorem c7_truncation_errors :
    (∀ (bytes : List Nat) (pos L s n : Nat),
      read_compact_size bytes pos = .ok (L, s) →
      pos + s + L < 2 ^ 64 → bytes.length < pos + s + L →
      parseWitnessItems bytes (n + 1) pos = .error (.msg "Invalid witness data")) ∧
    (∀ (bytes : List Nat) (pos n : Nat) (e : PErr),
      read_compact_size bytes pos = .error e →
      parseWitnessItems bytes (n + 1) pos = .error e) ∧
    (∀ (bytes : List Nat) (pos : Nat) (v m f : String) (e : PErr) (ic ics : Nat)
        (ins : List TxInput × Nat) (oc ocs : Nat) (outs : List TxOutput × Nat),
      read_compact_size bytes pos = .ok (ic, ics) →
      parseInputs bytes ic (pos + ics) = .ok ins →
      read_compact_size bytes ins.2 = .ok (oc, ocs) →
      parseOutputs bytes oc (ins.2 + ocs) = .ok outs →
      parseWitnessStacks bytes ic outs.2 = .error e →
      decodeRest bytes pos v m f true = .error e) := by
  refine ⟨?_, ?_, ?_⟩
  · intro bytes pos L s n hrcs hno hshort
    obtain ⟨hp, hs1, hps⟩ := read_compact_size_ok_bounds hrcs
    have hw : w64 (pos + s + L) = pos + s + L := Nat.mod_eq_of_lt hno
    unfold parseWitnessItems
    simp only [hrcs, pbind_ok,
      sliceHex_ok (by omega : pos ≤ pos + s) (by omega : pos + s ≤ bytes.length)]
    rw [if_pos (by rw [hw]; omega)]
  · intro bytes pos n e hrcs
    unfold parseWitnessItems
    rw [hrcs]
    simp only [pbind_error]
  · intro bytes pos v m f e ic ics ins oc ocs outs hic hins hoc houts hwit
    obtain ⟨hp1, hs1, hps1⟩ := read_compact_size_ok_bounds hic
    obtain ⟨hp2, hs2, hps2⟩ := read_compact_size_ok_bounds hoc
    unfold decodeRest
    simp only [hic, pbind_ok,
      sliceHex_ok (by omega : pos ≤ pos + ics) (by omega : pos + ics ≤ bytes.length),
      hins, hoc,
      sliceHex_ok (by omega : ins.2 ≤ ins.2 + ocs) (by omega : ins.2 + ocs ≤ bytes.length),
      houts, if_true, hwit, pbind_error]

/-- Counterexample for C7 as stated: this 68-byte segwit buffer is cut
short at a witness item whose declared length is 0xFFFFFFFFFFFFFFFF; the
claim says the decoder returns InvalidWitness, but the bounds check
`pos + item_size > bytes.len()` wraps around the 64-bit word, passes,
and the slice panics — the decode crashes without returning any error. -/
theorem c7_counterexample :
    decodeBytes (List.replicate 4 0x02 ++ [0x00, 0x01, 0x01] ++ List.replicate 36 0 ++
        [0x00] ++ List.replicate 4 0 ++ [0x01] ++ List.replicate 8 0 ++ [0x00] ++ [0x01] ++
        0xff :: List.replicate 8 0xff) = .error PErr.crash := by
  decide

/-- Witness for C7 at concrete inputs: an overlong witness item yields
InvalidWitness, a missing compact size yields TruncatedInput, and a
witness-section error is the decoder's sole result. -/
theorem c7_witness :
    parseWitnessItems [0x05] 1 0 = .error (.msg "Invalid witness data") ∧
    parseWitnessItems [] 1 0 = .error (.msg "Invalid compact size") ∧
    decodeRest ([0x01] ++ List.replicate 41 0 ++ [0x00]) 0 "v" "m" "f" true =
      .error (.msg "Invalid compact size") := by
  refine ⟨c7_truncation_errors.1 [0x05] 0 5 1 0 (by decide) (by decide) (by decide),
    c7_truncation_errors.2.1 [] 0 0 (.msg "Invalid compact size") (by decide), ?_⟩
  exact c7_truncation_errors.2.2 ([0x01] ++ List.replicate 41 0 ++ [0x00]) 0 "v" "m" "f"
    (.msg "Invalid compact size") 1 1
    ([{ txid := "0000000000000000000000000000000000000000000000000000000000000000",
        vout := "00000000", scriptsigsize := "00", scriptsig := "",
        sequence := "00000000" }], 42) 0 1 ([], 43)
    (by decide) (by decide) (by decide) (by decide) (by decide)
